import Mathlib

/-
Verification development for the k8s-istio-agent troubleshooting agent.

The Python sources are embedded shallowly:
- Python str is modelled as List Char (Str), so that every operation the code
  performs (strip, lower, startswith, substring containment, slicing, split)
  is a structurally recursive, kernel-computable Lean function.
- Python dicts are modelled as insertion-ordered association lists; dict
  assignment replaces the value of an existing key in place and appends new
  keys at the end, matching CPython insertion-order semantics.
- A Python function that may raise is modelled as returning Except String,
  the error carrying str(e).
- Wall-clock timestamps (time.time()) are modelled as rationals passed in
  explicitly: safe_execute receives the start and return instants.
-/

abbrev Str := List Char

/-- Converts a Lean string literal to the List Char model of a Python str. -/
def chars (s : String) : Str := s.data

/-- A single-quote character (used in Python error message formatting). -/
def quoteCh : Str := [Char.ofNat 39]

/-- Python str.lower (ASCII range, which is all the code relies on). -/
def strLower (s : Str) : Str := s.map Char.toLower

/-- Python str.strip with no arguments: remove leading and trailing whitespace. -/
def strTrim (s : Str) : Str :=
  ((s.dropWhile Char.isWhitespace).reverse.dropWhile Char.isWhitespace).reverse

/-- Python str.startswith with a string argument. -/
def strStartsWith (s pre : Str) : Bool := pre.isPrefixOf s

/-- Python substring containment: pat in s. -/
def strContains (pat : Str) : Str → Bool
  | [] => pat.isPrefixOf []
  | c :: rest => pat.isPrefixOf (c :: rest) || strContains pat rest

/-- Python str.split(sep) for a one-character separator: keeps empty pieces. -/
def splitOnChar (sep : Char) : Str → List Str
  | [] => [[]]
  | c :: rest =>
    let r := splitOnChar sep rest
    if c = sep then [] :: r
    else match r with
      | [] => [[c]]
      | h :: t => (c :: h) :: t

/-- Python s.split(chr(32), 1): split at the first space only; the second
component is none when no space occurs. -/
def splitOnceAtSpace : Str → Str × Option Str
  | [] => ([], Option.none)
  | c :: rest =>
    if c = Char.ofNat 32 then ([], some rest)
    else
      let p := splitOnceAtSpace rest
      (c :: p.1, p.2)

/-- Python str.join over a list of pieces. -/
def strIntercalate (sep : Str) (l : List Str) : Str := (List.intersperse sep l).flatten

/-- Decimal rendering of a Nat, as Python str(int). -/
def natToStr (n : Nat) : Str := (Nat.repr n).data

/-- Association-list lookup (Python dict read, d.get / d[k]). -/
def alookup {κ α : Type} [DecidableEq κ] : List (κ × α) → κ → Option α
  | [], _ => Option.none
  | kv :: rest, k => if kv.1 = k then some kv.2 else alookup rest k

/-- Python dict assignment d[k] = v on an insertion-ordered association list:
replaces the value of an existing key in place, appends a new key at the end. -/
def dictSet {κ α : Type} [DecidableEq κ] : List (κ × α) → κ → α → List (κ × α)
  | [], k, v => [(k, v)]
  | kv :: rest, k, v => if kv.1 = k then (k, v) :: rest else kv :: dictSet rest k v

/-- Python del d[k]. -/
def dictRemove {κ α : Type} [DecidableEq κ] : List (κ × α) → κ → List (κ × α)
  | [], _ => []
  | kv :: rest, k => if kv.1 = k then dictRemove rest k else kv :: dictRemove rest k

/-! ## tools/base.py -/

/-- tools/base.py ToolCategory. -/
inductive ToolCategory : Type
  | kubernetes
  | istio
  | observability
  | networking
  | security
deriving DecidableEq

/-- The five enum members, in declaration order. -/
def allCategories : List ToolCategory :=
  [ToolCategory.kubernetes, ToolCategory.istio, ToolCategory.observability,
   ToolCategory.networking, ToolCategory.security]

/-- The dynamic type of a Python value stored in ToolResult.data: a str, None,
or some non-str object (dict and friends, which the claims never inspect). -/
inductive PyData : Type
  | str (s : Str)
  | pnone
  | pother
deriving DecidableEq

/-- tools/base.py ToolResult (dataclass). execution_time is an Option Rat
modelling an optional float. -/
structure ToolResult : Type where
  success : Bool
  data : PyData
  error : Option Str := Option.none
  metadata : List (Str × Str) := []
  tool_name : Option Str := Option.none
  execution_time : Option Rat := Option.none
deriving DecidableEq

/-- tools/base.py ToolParameter (dataclass). -/
structure ToolParameter : Type where
  name : Str
  type : Str
  description : Str
  required : Bool := true
  default : Option Str := Option.none
  enum_values : Option (List Str) := Option.none
deriving DecidableEq

/-- tools/base.py Tool: name, description, category, the mutable enabled flag,
the declared parameter list (get_parameters) and the abstract execute method.
execute returns Except String: Except.error msg models a raised exception
whose str() is msg. -/
structure Tool : Type where
  name : Str
  description : Str
  category : ToolCategory
  enabled : Bool := true
  params : List ToolParameter
  execute : List (Str × Str) → Except Str ToolResult

/-- The dict comprehension in validate_parameters:
parameters = send each declared parameter into a dict keyed by name. -/
def paramDict (ps : List ToolParameter) : List (Str × ToolParameter) :=
  ps.foldl (fun m p => dictSet m p.name p) []

/-- The f-string for a missing required parameter. -/
def requiredMissingMsg (n : Str) : Str :=
  chars "Required parameter " ++ quoteCh ++ n ++ quoteCh ++ chars " is missing"

/-- Python repr of a list of strings, as printed inside an f-string. -/
def pyListRepr (l : List Str) : Str :=
  chars "[" ++ strIntercalate (chars ", ") (l.map (fun s => quoteCh ++ s ++ quoteCh)) ++ chars "]"

/-- The f-string for an enum violation. -/
def enumMsg (v : Str) (evs : List Str) : Str :=
  chars "Value " ++ quoteCh ++ v ++ quoteCh ++ chars " not in allowed values: " ++ pyListRepr evs

/-- tools/base.py Tool.validate_parameters. The returned error dict is the
required-parameter errors (in declared order) followed by the enum errors (in
kwargs order); the two key sets are disjoint because a required-missing key is
by definition absent from kwargs. The Python guard `if param.enum_values`
is falsy both for None and for an empty list, which the model mirrors. -/
def Tool.validate_parameters (t : Tool) (kwargs : List (Str × Str)) : List (Str × Str) :=
  let parameters := paramDict t.params
  let requiredErrors := parameters.filterMap (fun np =>
    if np.2.required = true ∧ alookup kwargs np.1 = Option.none then
      some (np.1, requiredMissingMsg np.1)
    else Option.none)
  let enumErrors := kwargs.filterMap (fun kv =>
    match alookup parameters kv.1 with
    | some p =>
      match p.enum_values with
      | some evs =>
        if evs ≠ [] ∧ kv.2 ∉ evs then some (kv.1, enumMsg kv.2 evs)
        else Option.none
      | Option.none => Option.none
    | Option.none => Option.none)
  requiredErrors ++ enumErrors

/-- The "; ".join over "key: message" pairs in safe_execute. -/
def joinValidationErrors (errors : List (Str × Str)) : Str :=
  strIntercalate (chars "; ") (errors.map (fun kv => kv.1 ++ chars ": " ++ kv.2))

/-- tools/base.py Tool.safe_execute. t0 is time.time() at entry, t1 the
time.time() reading at whichever return is taken; execution_time = t1 - t0.
The function is total: the Python try/except guarantees no exception escapes,
and the Except.error branch of execute is folded into a failure ToolResult. -/
def Tool.safe_execute (t : Tool) (kwargs : List (Str × Str)) (t0 t1 : Rat) : ToolResult :=
  let validation_errors := t.validate_parameters kwargs
  if validation_errors = [] then
    match t.execute kwargs with
    | Except.ok r =>
      { r with tool_name := some t.name, execution_time := some (t1 - t0) }
    | Except.error e =>
      { success := false, data := PyData.pnone, error := some e,
        tool_name := some t.name, execution_time := some (t1 - t0) }
  else
    { success := false, data := PyData.pnone,
      error := some (chars "Parameter validation failed: " ++
        joinValidationErrors validation_errors),
      tool_name := some t.name, execution_time := some (t1 - t0) }

/-! ## tools/registry.py -/

/-- Python set.add on a list-as-set of names. -/
def setAdd (s : List Str) (n : Str) : List Str := if n ∈ s then s else s ++ [n]

/-- Update the names set of one category inside the _categories dict. -/
def catUpdate (cats : List (ToolCategory × List Str)) (c : ToolCategory)
    (f : List Str → List Str) : List (ToolCategory × List Str) :=
  cats.map (fun p => if p.1 = c then (p.1, f p.2) else p)

/-- tools/registry.py ToolRegistry: the name-to-tool dict _tools and the
category-to-names index _categories. -/
structure ToolRegistry : Type where
  tools : List (Str × Tool)
  categories : List (ToolCategory × List Str)

/-- ToolRegistry.__init__: empty tools dict, one empty set per category. -/
def emptyRegistry : ToolRegistry :=
  { tools := [], categories := allCategories.map (fun c => (c, [])) }

/-- ToolRegistry.register: insert or overwrite by name, and add the name to
the index set of the new tool category. -/
def ToolRegistry.register (r : ToolRegistry) (t : Tool) : ToolRegistry :=
  { tools := dictSet r.tools t.name t,
    categories := catUpdate r.categories t.category (fun s => setAdd s t.name) }

/-- ToolRegistry.unregister: remove from the name dict and discard the name
from the index set of the removed tool category; returns whether it existed. -/
def ToolRegistry.unregister (r : ToolRegistry) (tool_name : Str) : ToolRegistry × Bool :=
  match alookup r.tools tool_name with
  | Option.none => (r, false)
  | some t =>
    ({ tools := dictRemove r.tools tool_name,
       categories := catUpdate r.categories t.category
         (fun s => s.filter (fun n => n ≠ tool_name)) }, true)

/-- ToolRegistry.get_tool. -/
def ToolRegistry.get_tool (r : ToolRegistry) (n : Str) : Option Tool := alookup r.tools n

/-- The names set of one category (empty when the key is absent). -/
def catNames (r : ToolRegistry) (c : ToolCategory) : List Str :=
  (alookup r.categories c).getD []

/-- ToolRegistry.execute_tool: not-found and disabled short circuits, else
delegate to safe_execute. t0 t1 are the wall-clock instants safe_execute
would observe. -/
def ToolRegistry.execute_tool (r : ToolRegistry) (tool_name : Str)
    (kwargs : List (Str × Str)) (t0 t1 : Rat) : ToolResult :=
  match r.get_tool tool_name with
  | Option.none =>
    { success := false, data := PyData.pnone,
      error := some (chars "Tool " ++ quoteCh ++ tool_name ++ quoteCh ++ chars " not found"),
      tool_name := some tool_name }
  | some t =>
    if t.enabled then t.safe_execute kwargs t0 t1
    else
      { success := false, data := PyData.pnone,
        error := some (chars "Tool " ++ quoteCh ++ tool_name ++ quoteCh ++ chars " is disabled"),
        tool_name := some tool_name }

/-- One mutating registry operation. -/
inductive RegOp : Type
  | reg (t : Tool)
  | unreg (tool_name : Str)

/-- Apply one operation. -/
def applyOp (r : ToolRegistry) : RegOp → ToolRegistry
  | RegOp.reg t => r.register t
  | RegOp.unreg n => (r.unregister n).1

/-- Run a sequence of operations from a given registry. -/
def applyOpsFrom (r : ToolRegistry) (ops : List RegOp) : ToolRegistry :=
  ops.foldl applyOp r

/-- Run a sequence of operations from the freshly constructed registry. -/
def applyOps (ops : List RegOp) : ToolRegistry := applyOpsFrom emptyRegistry ops

/-- The consistency invariant claimed for the registry: a name sits in the
index set of category c exactly when the name dict holds a tool of that name
whose category is c. -/
def Consistent (r : ToolRegistry) : Prop :=
  ∀ n c, n ∈ catNames r c ↔ ∃ t, alookup r.tools n = some t ∧ t.category = c

/-- The half of the invariant the code does maintain unconditionally: every
registered tool name is indexed under its tool category. -/
def ForwardConsistent (r : ToolRegistry) : Prop :=
  ∀ n t, alookup r.tools n = some t → n ∈ catNames r t.category

/-- Every category key is present in the _categories dict (established by
__init__ and preserved by every operation). -/
def CatsComplete (r : ToolRegistry) : Prop :=
  ∀ c, (alookup r.categories c).isSome

/-- An operation sequence never overwrites a registered name with a tool of a
different category (evaluated against the evolving registry state). -/
def NoCrossOverwrite : ToolRegistry → List RegOp → Prop
  | _, [] => True
  | r, op :: ops =>
    (match op with
     | RegOp.reg t => ∀ t0, alookup r.tools t.name = some t0 → t0.category = t.category
     | RegOp.unreg _ => True) ∧ NoCrossOverwrite (applyOp r op) ops

/-! ## agent/controller.py -/

/-- llm/provider.py Message (dataclass). -/
structure Message : Type where
  role : Str
  content : Str
deriving DecidableEq

/-- agent/controller.py ConversationContext (dataclass). The Python field
named namespace is called nspace here because namespace is a Lean keyword. -/
structure ConversationContext : Type where
  user_query : Str
  symptoms : List Str
  cluster_info : List (Str × Str)
  nspace : Str
  suspected_components : List Str
  investigation_steps : List Str
deriving DecidableEq

/-- A Message with the system role. -/
def sysMsg (content : Str) : Message := { role := chars "system", content := content }

/-- A Message with the user role. -/
def userMsg (content : Str) : Message := { role := chars "user", content := content }

/-- A Message with the assistant role. -/
def assistantMsg (content : Str) : Message := { role := chars "assistant", content := content }

/-- The fresh ConversationContext built in process_query. -/
def newContext (user_query ns : Str) : ConversationContext :=
  { user_query := user_query, symptoms := [], cluster_info := [], nspace := ns,
    suspected_components := [], investigation_steps := [] }

/-- A tool call extracted from LLM text (dict with tool and parameters keys). -/
structure ToolCall : Type where
  tool : Str
  parameters : List (Str × Str)
deriving DecidableEq

/-- The kubectl tool-call dict built by the extractor. -/
def kubectlCall (command ns : Str) : ToolCall :=
  { tool := chars "kubectl",
    parameters := [(chars "command", command), (chars "namespace", ns)] }

/-- The default investigation call: kubectl get pods in the current namespace. -/
def getPodsCall (ns : Str) : ToolCall := kubectlCall (chars "get pods") ns

/-- The heuristic call for services. -/
def getServicesCall (ns : Str) : ToolCall := kubectlCall (chars "get services") ns

/-- AgentController._extract_tool_calls, body of the per-line for loop: the
kubectl prefix rule, the istio prefix rule, and the narrative
let-me-check/using heuristic, in their elif order. -/
def extractLineCalls (rawLine : Str) (ns : Str) : List ToolCall :=
  let line := strTrim rawLine
  if strStartsWith line (chars "kubectl ") then
    [kubectlCall (strTrim (line.drop 8)) ns]
  else if strStartsWith line (chars "istio ") then
    match splitOnceAtSpace (strTrim (line.drop 6)) with
    | (action, Option.none) => [{ tool := chars "istio", parameters := [(chars "action", action)] }]
    | (action, some service) =>
      [{ tool := chars "istio",
         parameters := [(chars "action", action), (chars "service", service)] }]
  else if strContains (chars "let me check") (strLower line) &&
      strContains (chars "using") (strLower line) then
    if strContains (chars "kubectl") (strLower line) then
      if strContains (chars "pods") (strLower line) then [getPodsCall ns]
      else if strContains (chars "services") (strLower line) then [getServicesCall ns]
      else []
    else []
  else []

/-- AgentController._should_start_investigation trigger list. -/
def investigation_triggers : List Str :=
  [chars "let me investigate", chars "let me check",
   chars "i" ++ quoteCh ++ chars "ll examine",
   chars "let me look at", chars "i need to see", chars "first, let me"]

/-- AgentController._should_start_investigation. -/
def should_start_investigation (llm_response : Str) : Bool :=
  investigation_triggers.any (fun t => strContains t (strLower llm_response))

/-- The tool calls produced by the per-line loop of _extract_tool_calls
(rules before the fallback), in line order. -/
def lineCallsOf (llm_response ns : Str) : List ToolCall :=
  ((splitOnChar (Char.ofNat 10) llm_response).map (fun l => extractLineCalls l ns)).flatten

/-- AgentController._extract_tool_calls: per-line rules, then the fallback
default call when nothing was extracted but an investigation trigger occurs. -/
def extract_tool_calls (llm_response ns : Str) : List ToolCall :=
  let tool_calls := lineCallsOf llm_response ns
  if tool_calls = [] ∧ should_start_investigation llm_response = true then
    tool_calls ++ [getPodsCall ns]
  else tool_calls

/-- AgentController._is_new_issue indicator list. -/
def new_issue_indicators : List Str :=
  [chars "new problem", chars "different issue", chars "another error",
   chars "start over", chars "new question"]

/-- AgentController._is_new_issue. -/
def is_new_issue (user_input : Str) : Bool :=
  new_issue_indicators.any (fun i => strContains i (strLower user_input))

/-- The crashloopbackoff block of _update_context_from_result. -/
def applyCrashLoop (data : Str) (ctx : ConversationContext) : ConversationContext :=
  if strContains (chars "crashloopbackoff") data then
    { ctx with symptoms := ctx.symptoms ++ [chars "Pod in CrashLoopBackOff"],
               suspected_components := ctx.suspected_components ++ [chars "application startup"] }
  else ctx

/-- The imagepullbackoff / errimagepull block of _update_context_from_result. -/
def applyImagePull (data : Str) (ctx : ConversationContext) : ConversationContext :=
  if strContains (chars "imagepullbackoff") data || strContains (chars "errimagepull") data then
    { ctx with symptoms := ctx.symptoms ++ [chars "Image pull failure"],
               suspected_components := ctx.suspected_components ++ [chars "container registry"] }
  else ctx

/-- The pending block of _update_context_from_result. -/
def applyPending (data : Str) (ctx : ConversationContext) : ConversationContext :=
  if strContains (chars "pending") data then
    { ctx with symptoms := ctx.symptoms ++ [chars "Pod stuck in Pending"],
               suspected_components := ctx.suspected_components ++ [chars "scheduling/resources"] }
  else ctx

/-- The pod-health block of _update_context_from_result: counts rows after the
header containing the running marker and stores the ratio in cluster_info. -/
def applyPodHealth (rawData : Str) (ctx : ConversationContext) : ConversationContext :=
  let lines := splitOnChar (Char.ofNat 10) rawData
  if lines.length > 1 then
    let running_count := (lines.drop 1).countP (fun l => strContains (chars "running") (strLower l))
    let total_count := lines.length - 1
    let ratio := natToStr running_count ++ chars "/" ++ natToStr total_count ++ chars " running"
    { ctx with cluster_info := dictSet ctx.cluster_info (chars "pod_health") ratio }
  else ctx

/-- AgentController._update_context_from_result, as a pure state transformer
on the ConversationContext. The early return fires when the result failed;
insight extraction happens only for kubectl results whose data is a str. -/
def update_context_from_result (tool_name : Str) (result : ToolResult)
    (ctx : ConversationContext) : ConversationContext :=
  if result.success then
    match result.data with
    | PyData.str s =>
      if tool_name = chars "kubectl" then
        let data := strLower s
        applyPodHealth s (applyPending data (applyImagePull data (applyCrashLoop data ctx)))
      else ctx
    | _ => ctx
  else ctx

/-- AgentController._execute_tools: run each call through the registry
collaborator in order, collecting results and folding each into the context.
The collaborator is abstracted as a total function, which registry execute_tool
is (claims C1/C4). -/
def execute_tools (texec : ToolCall → ToolResult) (tool_calls : List ToolCall)
    (ctx : ConversationContext) : List ToolResult × ConversationContext :=
  tool_calls.foldl
    (fun acc tc =>
      let r := texec tc
      (acc.1 ++ [r], update_context_from_result tc.tool r acc.2))
    ([], ctx)

/-- str() of a ToolResult data field, as rendered into the f-string. -/
def pyStrOfData : PyData → Str
  | PyData.str s => s
  | PyData.pnone => chars "None"
  | PyData.pother => chars "<object>"

/-- str() of an optional string field. -/
def optStr : Option Str → Str
  | Option.none => chars "None"
  | some s => s

/-- AgentController._format_tool_results. -/
def format_tool_results (results : List ToolResult) : Str :=
  strIntercalate (chars "\n\n") (results.map (fun r =>
    if r.success then
      chars "✅ " ++ optStr r.tool_name ++ chars " executed successfully:\n" ++ pyStrOfData r.data
    else
      chars "❌ " ++ optStr r.tool_name ++ chars " failed: " ++ optStr r.error))

/-- The fixed analysis-limit message returned when the iteration budget is
exhausted. -/
def limitMessage : Str :=
  chars "I" ++ quoteCh ++
  chars "ve reached my analysis limit for this query. Based on my investigation, I recommend reviewing the tool outputs above for insights. Please provide more specific information or ask about a particular aspect of the issue."

/-- AgentController construction state: configuration plus the mutable
conversation history and session context. The system prompt is built once at
construction; its text does not matter to the claims, so it is a field. -/
structure Agent : Type where
  max_iterations : Nat
  conversation_memory : Nat
  conversation_history : List Message
  context : Option ConversationContext
  system_prompt : Str

/-- Python history[-m:] — note that for m = 0 this is history[0:], the whole
list, not the empty suffix. -/
def pySliceLast {α : Type} (m : Nat) (l : List α) : List α :=
  if m = 0 then l else l.drop (l.length - m)

/-- The history mutation at the top of process_query: append the user message,
then hard-truncate to the last conversation_memory messages when the length
exceeds conversation_memory * 2. -/
def historyAfterAppend (a : Agent) (user_input : Str) : List Message :=
  let hist := a.conversation_history ++ [userMsg user_input]
  if hist.length > a.conversation_memory * 2 then pySliceLast a.conversation_memory hist
  else hist

/-- The main reasoning loop of process_query. fuel is the remaining iteration
budget; calls counts chat_completion invocations so far. Returns the final
history, context, returned answer text, and total LLM call count. llm is the
chat-completion collaborator (response content as a function of the prompt);
texec is the registry execute_tool collaborator. -/
def runLoop (llm : List Message → Str) (texec : ToolCall → ToolResult)
    (sysPrompt : Str) : Nat → List Message → ConversationContext → Nat →
    List Message × ConversationContext × Str × Nat
  | 0, hist, ctx, calls => (hist, ctx, limitMessage, calls)
  | Nat.succ fuel, hist, ctx, calls =>
    let msgs := sysMsg sysPrompt :: hist
    let respContent := llm msgs
    let tool_calls := extract_tool_calls respContent ctx.nspace
    if tool_calls = [] then
      (hist ++ [assistantMsg respContent], ctx, respContent, calls + 1)
    else
      let step := execute_tools texec tool_calls ctx
      let resultsText := chars "Tool Results:\n" ++ format_tool_results step.1
      let hist3 := hist ++ [assistantMsg respContent] ++ [userMsg resultsText]
      runLoop llm texec sysPrompt fuel hist3 step.2 (calls + 1)

/-- AgentController.process_query with the two collaborators passed
explicitly. Returns the mutated agent, the answer text, and the number of LLM
calls performed. -/
def process_query (llm : List Message → Str) (texec : ToolCall → ToolResult)
    (a : Agent) (user_input ns : Str) : Agent × Str × Nat :=
  let hist := historyAfterAppend a user_input
  let ctx := match a.context with
    | Option.none => newContext user_input ns
    | some c => if is_new_issue user_input then newContext user_input ns else c
  let res := runLoop llm texec a.system_prompt a.max_iterations hist ctx 0
  ({ a with conversation_history := res.1, context := some res.2.1 }, res.2.2.1, res.2.2.2)

/-! ## Concrete instances used by witnesses and counterexamples -/

/-- A successful ToolResult as a concrete tool would return it. -/
def okResult : ToolResult :=
  { success := true, data := PyData.str (chars "NAME READY\npod-1 Running") }

/-- An execute implementation that always succeeds. -/
def demoExec : List (Str × Str) → Except Str ToolResult := fun _ => Except.ok okResult

/-- An execute implementation that always raises. -/
def raisingExec : List (Str × Str) → Except Str ToolResult :=
  fun _ => Except.error (chars "command timed out")

/-- The required command parameter of the kubectl tool. -/
def cmdParam : ToolParameter :=
  { name := chars "command", type := chars "string",
    description := chars "The kubectl command to execute", required := true }

/-- The optional namespace parameter of the kubectl tool. -/
def nsParam : ToolParameter :=
  { name := chars "namespace", type := chars "string",
    description := chars "Kubernetes namespace", required := false }

/-- A kubectl-shaped tool with a benign execute. -/
def cmdTool : Tool :=
  { name := chars "kubectl", description := chars "Execute kubectl commands",
    category := ToolCategory.kubernetes, params := [cmdParam, nsParam], execute := demoExec }

/-- A tool whose execute raises unconditionally. -/
def raisingTool : Tool :=
  { name := chars "kubectl", description := chars "Execute kubectl commands",
    category := ToolCategory.kubernetes, params := [], execute := raisingExec }

/-- A parameter declared with an empty enum list. -/
def modeParam : ToolParameter :=
  { name := chars "mode", type := chars "string", description := chars "mode",
    required := false, enum_values := some [] }

/-- A tool carrying the empty-enum parameter. -/
def enumTool : Tool :=
  { name := chars "istio", description := chars "istio tool",
    category := ToolCategory.istio, params := [modeParam], execute := demoExec }

/-- A required declaration of the parameter cmd. -/
def dupReqParam : ToolParameter :=
  { name := chars "cmd", type := chars "string",
    description := chars "required declaration", required := true }

/-- A later optional declaration of the same parameter name cmd. -/
def dupOptParam : ToolParameter :=
  { name := chars "cmd", type := chars "string",
    description := chars "optional duplicate", required := false }

/-- A tool declaring the same parameter name twice, required first. -/
def dupTool : Tool :=
  { name := chars "logs", description := chars "duplicate declarations",
    category := ToolCategory.kubernetes, params := [dupReqParam, dupOptParam],
    execute := demoExec }

/-- A tool named x in the kubernetes category. -/
def tKub : Tool :=
  { name := chars "x", description := chars "first", category := ToolCategory.kubernetes,
    params := [], execute := demoExec }

/-- A different tool with the same name x in the istio category. -/
def tIst : Tool :=
  { name := chars "x", description := chars "second", category := ToolCategory.istio,
    params := [], execute := demoExec }

/-- An agent configured with conversation_memory = 0. -/
def agent0 : Agent :=
  { max_iterations := 20, conversation_memory := 0, conversation_history := [],
    context := Option.none, system_prompt := chars "system prompt" }

/-- An agent with a two-message history and conversation_memory = 1. -/
def agentH : Agent :=
  { max_iterations := 20, conversation_memory := 1,
    conversation_history :=
      [{ role := chars "user", content := chars "first" },
       { role := chars "assistant", content := chars "second" }],
    context := Option.none, system_prompt := chars "system prompt" }

/-- An agent with an iteration budget of 2 and empty history. -/
def agentW : Agent :=
  { max_iterations := 2, conversation_memory := 10, conversation_history := [],
    context := Option.none, system_prompt := chars "system prompt" }

/-- A failed ToolResult. -/
def failResult : ToolResult :=
  { success := false, data := PyData.pnone, error := some (chars "exit status 1") }

/-- A session context with some accumulated state. -/
def ctx0 : ConversationContext :=
  { user_query := chars "why are my pods failing", symptoms := [chars "Pod in CrashLoopBackOff"],
    cluster_info := [], nspace := chars "prod",
    suspected_components := [chars "application startup"], investigation_steps := [] }

/-! ## Helper lemmas -/

theorem alookup_mem {κ α : Type} [DecidableEq κ] {m : List (κ × α)} {k : κ} {v : α}
    (h : alookup m k = some v) : (k, v) ∈ m := by
  induction m with
  | nil => simp [alookup] at h
  | cons kv rest ih =>
    obtain ⟨k1, v1⟩ := kv
    by_cases hk : k1 = k
    · subst hk
      simp [alookup] at h
      subst h
      exact List.mem_cons_self _ _
    · simp only [alookup] at h
      rw [if_neg hk] at h
      exact List.mem_cons_of_mem _ (ih h)

theorem dictSet_of_not_mem {κ α : Type} [DecidableEq κ] (m : List (κ × α)) (k : κ) (v : α)
    (h : ∀ kv ∈ m, kv.1 ≠ k) : dictSet m k v = m ++ [(k, v)] := by
  induction m with
  | nil => rfl
  | cons kv rest ih =>
    have hne : kv.1 ≠ k := h kv (List.mem_cons_self kv rest)
    simp [dictSet, hne]
    exact ih (fun kv2 h2 => h kv2 (List.mem_cons_of_mem _ h2))

theorem paramDict_aux (ps : List ToolParameter) :
    ∀ acc : List (Str × ToolParameter),
    (∀ p ∈ ps, ∀ kv ∈ acc, kv.1 ≠ p.name) →
    (ps.map ToolParameter.name).Nodup →
    ps.foldl (fun m p => dictSet m p.name p) acc = acc ++ ps.map (fun p => (p.name, p)) := by
  induction ps with
  | nil => intro acc _ _; simp
  | cons p rest ih =>
    intro acc hdisj hnd
    have h1 : dictSet acc p.name p = acc ++ [(p.name, p)] :=
      dictSet_of_not_mem acc p.name p (hdisj p (List.mem_cons_self p rest))
    have hnd2 : (rest.map ToolParameter.name).Nodup := (List.nodup_cons.mp hnd).2
    have hnotin : p.name ∉ rest.map ToolParameter.name := (List.nodup_cons.mp hnd).1
    have h2 : ∀ q ∈ rest, ∀ kv ∈ acc ++ [(p.name, p)], kv.1 ≠ q.name := by
      intro q hq kv hkv
      rcases List.mem_append.mp hkv with h | h
      · exact hdisj q (List.mem_cons_of_mem _ hq) kv h
      · simp at h
        subst h
        intro hcontra
        apply hnotin
        rw [show p.name = q.name from hcontra]
        exact List.mem_map_of_mem ToolParameter.name hq
    calc (p :: rest).foldl (fun m q => dictSet m q.name q) acc
        = rest.foldl (fun m q => dictSet m q.name q) (acc ++ [(p.name, p)]) := by
          simp [List.foldl_cons, h1]
      _ = acc ++ [(p.name, p)] ++ rest.map (fun q => (q.name, q)) := ih _ h2 hnd2
      _ = acc ++ (p :: rest).map (fun q => (q.name, q)) := by simp

theorem paramDict_eq_map (ps : List ToolParameter)
    (hnd : (ps.map ToolParameter.name).Nodup) :
    paramDict ps = ps.map (fun p => (p.name, p)) := by
  have := paramDict_aux ps [] (by intro p _ kv hkv; simp at hkv) hnd
  simpa [paramDict] using this

theorem alookup_map_name (ps : List ToolParameter) (p : ToolParameter)
    (hnd : (ps.map ToolParameter.name).Nodup) (hp : p ∈ ps) :
    alookup (ps.map (fun q => (q.name, q))) p.name = some p := by
  induction ps with
  | nil => simp at hp
  | cons q rest ih =>
    rcases List.mem_cons.mp hp with h | h
    · subst h
      simp [alookup]
    · have hnotin : q.name ∉ rest.map ToolParameter.name := (List.nodup_cons.mp hnd).1
      have hne : q.name ≠ p.name := by
        intro hcontra
        exact hnotin (hcontra ▸ List.mem_map_of_mem ToolParameter.name h)
      simp [alookup, hne]
      exact ih (List.nodup_cons.mp hnd).2 h

/-! ## Claim theorems -/

/-- C1: safe_execute never raises (it is a total function into ToolResult).
Whenever execute is actually invoked (the run where it can raise, i.e.
parameter validation passed) and raises, safe_execute catches the exception
and returns a failure ToolResult whose error is the exception message, whose
tool_name is the declared tool name, and whose execution_time is the
nonnegative wall-clock elapsed time; tool_name and execution_time are stamped
on the success path as well. -/
theorem safe_execute_catches_and_stamps (t : Tool) (kwargs : List (Str × Str))
    (t0 t1 : Rat) (ht : t0 ≤ t1) (hv : t.validate_parameters kwargs = []) :
    ((t.safe_execute kwargs t0 t1).tool_name = some t.name ∧
     (t.safe_execute kwargs t0 t1).execution_time = some (t1 - t0) ∧
     (0 : Rat) ≤ t1 - t0) ∧
    (∀ msg, t.execute kwargs = Except.error msg →
      t.safe_execute kwargs t0 t1 =
        { success := false, data := PyData.pnone, error := some msg, metadata := [],
          tool_name := some t.name, execution_time := some (t1 - t0) }) := by
  constructor
  · refine ⟨?_, ?_, sub_nonneg.mpr ht⟩ <;>
      · unfold Tool.safe_execute
        rw [if_pos hv]
        cases t.execute kwargs <;> rfl
  · intro msg hx
    unfold Tool.safe_execute
    rw [if_pos hv, hx]

/-- Witness for C1 at a tool whose execute raises unconditionally. -/
theorem safe_execute_catches_and_stamps_witness :
    raisingTool.safe_execute [] 0 1 =
      { success := false, data := PyData.pnone, error := some (chars "command timed out"),
        metadata := [], tool_name := some (chars "kubectl"), execution_time := some (1 - 0) } :=
  (safe_execute_catches_and_stamps raisingTool [] 0 1 (by norm_num) rfl).2
    (chars "command timed out") rfl

/-- C2 counterexample: when validation fails, the error field is not the bare
"; "-joined concatenation of the "key: message" pairs; the code prepends the
literal prefix "Parameter validation failed: " to that concatenation. -/
theorem safe_execute_validation_error_has_prefix :
    cmdTool.validate_parameters [] =
      [(chars "command", requiredMissingMsg (chars "command"))] ∧
    (cmdTool.safe_execute [] 0 1).error ≠
      some (joinValidationErrors (cmdTool.validate_parameters [])) ∧
    (cmdTool.safe_execute [] 0 1).error =
      some (chars "Parameter validation failed: " ++
        joinValidationErrors (cmdTool.validate_parameters [])) := by
  refine ⟨rfl, ?_, rfl⟩
  decide

/-- C2 (amended): when validate_parameters is non-empty, safe_execute returns
a failure ToolResult without invoking execute (the result is identical for any
two tools differing only in execute), and its error is the "key: message"
concatenation joined by "; " prefixed with "Parameter validation failed: ". -/
theorem safe_execute_validation_failure_result (nm ds : Str) (cat : ToolCategory)
    (en : Bool) (ps : List ToolParameter)
    (ex1 ex2 : List (Str × Str) → Except Str ToolResult)
    (kwargs : List (Str × Str)) (t0 t1 : Rat)
    (hv : Tool.validate_parameters ⟨nm, ds, cat, en, ps, ex1⟩ kwargs ≠ []) :
    Tool.safe_execute ⟨nm, ds, cat, en, ps, ex1⟩ kwargs t0 t1 =
      { success := false, data := PyData.pnone,
        error := some (chars "Parameter validation failed: " ++
          joinValidationErrors (Tool.validate_parameters ⟨nm, ds, cat, en, ps, ex1⟩ kwargs)),
        metadata := [], tool_name := some nm, execution_time := some (t1 - t0) } ∧
    Tool.safe_execute ⟨nm, ds, cat, en, ps, ex1⟩ kwargs t0 t1 =
      Tool.safe_execute ⟨nm, ds, cat, en, ps, ex2⟩ kwargs t0 t1 := by
  have hv2 : Tool.validate_parameters ⟨nm, ds, cat, en, ps, ex2⟩ kwargs =
      Tool.validate_parameters ⟨nm, ds, cat, en, ps, ex1⟩ kwargs := rfl
  constructor
  · unfold Tool.safe_execute
    rw [if_neg hv]
  · unfold Tool.safe_execute
    rw [hv2, if_neg hv, if_neg hv]

/-- Witness for C2 (amended) at the kubectl-shaped tool with no arguments. -/
theorem safe_execute_validation_failure_result_witness :
    Tool.safe_execute
      ⟨chars "kubectl", chars "Execute kubectl commands", ToolCategory.kubernetes,
       true, [cmdParam, nsParam], demoExec⟩ [] 0 1 =
      { success := false, data := PyData.pnone,
        error := some (chars "Parameter validation failed: " ++
          joinValidationErrors (Tool.validate_parameters
            ⟨chars "kubectl", chars "Execute kubectl commands", ToolCategory.kubernetes,
             true, [cmdParam, nsParam], demoExec⟩ [])),
        metadata := [], tool_name := some (chars "kubectl"),
        execution_time := some (1 - 0) } :=
  (safe_execute_validation_failure_result (chars "kubectl")
    (chars "Execute kubectl commands") ToolCategory.kubernetes true
    [cmdParam, nsParam] demoExec raisingExec [] 0 1 (by decide)).1

/-- C4: execute_tool is total and resolves names per the registry contract:
unknown names give the fixed not-found failure with tool_name stamped, a
disabled tool gives the fixed is-disabled failure without invoking the tool,
and an enabled tool delegates to its safe_execute. -/
theorem execute_tool_resolution (r : ToolRegistry) (nm : Str)
    (kwargs : List (Str × Str)) (t0 t1 : Rat) :
    (r.get_tool nm = Option.none →
      r.execute_tool nm kwargs t0 t1 =
        { success := false, data := PyData.pnone,
          error := some (chars "Tool " ++ quoteCh ++ nm ++ quoteCh ++ chars " not found"),
          metadata := [], tool_name := some nm, execution_time := Option.none }) ∧
    (∀ t, r.get_tool nm = some t → t.enabled = false →
      r.execute_tool nm kwargs t0 t1 =
        { success := false, data := PyData.pnone,
          error := some (chars "Tool " ++ quoteCh ++ nm ++ quoteCh ++ chars " is disabled"),
          metadata := [], tool_name := some nm, execution_time := Option.none }) ∧
    (∀ t, r.get_tool nm = some t → t.enabled = true →
      r.execute_tool nm kwargs t0 t1 = t.safe_execute kwargs t0 t1) := by
  refine ⟨?_, ?_, ?_⟩
  · intro h
    unfold ToolRegistry.execute_tool
    rw [h]
  · intro t h he
    unfold ToolRegistry.execute_tool
    rw [h]
    simp [he]
  · intro t h he
    unfold ToolRegistry.execute_tool
    rw [h]
    simp [he]

/-- Witness for C4: the not-found path on the empty registry. -/
theorem execute_tool_resolution_witness :
    emptyRegistry.execute_tool (chars "missing_tool") [] 0 0 =
      { success := false, data := PyData.pnone,
        error := some (chars "Tool " ++ quoteCh ++ chars "missing_tool" ++ quoteCh ++
          chars " not found"),
        metadata := [], tool_name := some (chars "missing_tool"),
        execution_time := Option.none } :=
  (execute_tool_resolution emptyRegistry (chars "missing_tool") [] 0 0).1 rfl

/-- Every element produced by a dict assignment is an old entry or the new
key-value pair. -/
theorem mem_dictSet {κ α : Type} [DecidableEq κ] (m : List (κ × α)) (k : κ) (v : α) :
    ∀ kv ∈ dictSet m k v, kv ∈ m ∨ kv = (k, v) := by
  induction m with
  | nil =>
    intro kv hkv
    simp [dictSet] at hkv
    exact Or.inr hkv
  | cons hd rest ih =>
    intro kv hkv
    by_cases h1 : hd.1 = k
    · rw [show dictSet (hd :: rest) k v = (k, v) :: rest from by simp [dictSet, h1]] at hkv
      rcases List.mem_cons.mp hkv with h | h
      · exact Or.inr h
      · exact Or.inl (List.mem_cons_of_mem _ h)
    · rw [show dictSet (hd :: rest) k v = hd :: dictSet rest k v from by simp [dictSet, h1]] at hkv
      rcases List.mem_cons.mp hkv with h | h
      · exact Or.inl (h ▸ List.mem_cons_self _ _)
      · rcases ih kv h with h2 | h2
        · exact Or.inl (List.mem_cons_of_mem _ h2)
        · exact Or.inr h2

theorem paramDict_entries_aux (ps : List ToolParameter) :
    ∀ acc : List (Str × ToolParameter),
    ∀ e ∈ ps.foldl (fun m p => dictSet m p.name p) acc,
      e ∈ acc ∨ ∃ q ∈ ps, e = (q.name, q) := by
  induction ps with
  | nil =>
    intro acc e he
    exact Or.inl he
  | cons p rest ih =>
    intro acc e he
    rcases ih (dictSet acc p.name p) e he with h | h
    · rcases mem_dictSet acc p.name p e h with h2 | h2
      · exact Or.inl h2
      · exact Or.inr ⟨p, List.mem_cons_self p rest, h2⟩
    · obtain ⟨q, hq, he2⟩ := h
      exact Or.inr ⟨q, List.mem_cons_of_mem _ hq, he2⟩

/-- Every entry of the effective parameter table comes from a declaration,
paired with its own name. -/
theorem paramDict_entry_shape (ps : List ToolParameter) :
    ∀ e ∈ paramDict ps, ∃ q ∈ ps, e = (q.name, q) := by
  intro e he
  rcases paramDict_entries_aux ps [] e he with h | h
  · simp at h
  · exact h

/-- C3 counterexample: two behaviours of validate_parameters contradict the
claim. First, a declared parameter whose enum_values is the empty list is
never flagged although the supplied value is (vacuously) not among the
allowed values, because the Python guard `if param.enum_values` is falsy for
[]. Second, a required declared parameter that is shadowed by a later
optional declaration of the same name is never flagged when absent, because
the dict comprehension keeps only the last declaration per name. -/
theorem validate_parameters_original_claim_fails :
    (enumTool.params = [modeParam] ∧
     modeParam.enum_values = some [] ∧
     modeParam.required = false ∧
     chars "zzz" ∉ ([] : List Str) ∧
     enumTool.validate_parameters [(chars "mode", chars "zzz")] = []) ∧
    (dupTool.params = [dupReqParam, dupOptParam] ∧
     dupReqParam.required = true ∧
     dupReqParam.name = chars "cmd" ∧
     alookup ([] : List (Str × Str)) (chars "cmd") = Option.none ∧
     dupTool.validate_parameters [] = []) := by
  refine ⟨⟨rfl, rfl, rfl, ?_, rfl⟩, rfl, rfl, rfl, rfl, rfl⟩
  simp

/-- C3 (amended): validate_parameters works over the effective parameter
table built by the dict comprehension, in which a later declaration of a name
replaces an earlier one. It reports an error for each effective declaration
that is required and absent from the supplied mapping, regardless of other
parameters; it reports an error for each supplied parameter whose effective
declaration carries a nonempty enum_values list that excludes the supplied
value (a declared empty enum list is skipped); every reported key is the name
of a declared parameter, so an unknown supplied key is never an error; and
the result is empty when every required effective declaration is supplied and
every supplied enum-checked value is allowed. -/
theorem validate_parameters_spec (t : Tool) (kwargs : List (Str × Str)) :
    (∀ np ∈ paramDict t.params, np.2.required = true →
      alookup kwargs np.1 = Option.none →
      (np.1, requiredMissingMsg np.1) ∈ t.validate_parameters kwargs) ∧
    (∀ kv ∈ kwargs, ∀ p, alookup (paramDict t.params) kv.1 = some p → ∀ evs,
      p.enum_values = some evs → evs ≠ [] → kv.2 ∉ evs →
      (kv.1, enumMsg kv.2 evs) ∈ t.validate_parameters kwargs) ∧
    (∀ e ∈ t.validate_parameters kwargs, ∃ p ∈ t.params, p.name = e.1) ∧
    ((∀ np ∈ paramDict t.params, np.2.required = true →
        (alookup kwargs np.1).isSome) →
     (∀ kv ∈ kwargs, ∀ p, alookup (paramDict t.params) kv.1 = some p → ∀ evs,
        p.enum_values = some evs → evs = [] ∨ kv.2 ∈ evs) →
     t.validate_parameters kwargs = []) := by
  refine ⟨?_, ?_, ?_, ?_⟩
  · intro np hnp hreq habs
    unfold Tool.validate_parameters
    apply List.mem_append_left
    apply List.mem_filterMap.mpr
    refine ⟨np, hnp, ?_⟩
    rw [if_pos ⟨hreq, habs⟩]
  · intro kv hkv p hlook evs henum hne hnotin
    unfold Tool.validate_parameters
    apply List.mem_append_right
    apply List.mem_filterMap.mpr
    refine ⟨kv, hkv, ?_⟩
    simp only [hlook, henum]
    rw [if_pos ⟨hne, hnotin⟩]
  · intro e he
    unfold Tool.validate_parameters at he
    rcases List.mem_append.mp he with h | h
    · obtain ⟨np, hnp, hf⟩ := List.mem_filterMap.mp h
      obtain ⟨q, hq, hqe⟩ := paramDict_entry_shape t.params np hnp
      by_cases hc : np.2.required = true ∧ alookup kwargs np.1 = Option.none
      · rw [if_pos hc] at hf
        have hfe := Option.some.inj hf
        refine ⟨q, hq, ?_⟩
        rw [← hfe, hqe]
      · rw [if_neg hc] at hf
        exact absurd hf (by simp)
    · obtain ⟨kv, hkv, hf⟩ := List.mem_filterMap.mp h
      cases hl : alookup (paramDict t.params) kv.1 with
      | none => rw [hl] at hf; exact absurd hf (by simp)
      | some p =>
        rw [hl] at hf
        have hpm : (kv.1, p) ∈ paramDict t.params := alookup_mem hl
        obtain ⟨q, hq, hqe⟩ := paramDict_entry_shape t.params (kv.1, p) hpm
        have hf2 : (match p.enum_values with
            | some evs =>
              if evs ≠ [] ∧ kv.2 ∉ evs then some (kv.1, enumMsg kv.2 evs) else Option.none
            | Option.none => Option.none) = some e := hf
        cases he2 : p.enum_values with
        | none => rw [he2] at hf2; exact absurd hf2 (by simp)
        | some evs =>
          rw [he2] at hf2
          have hf3 : (if evs ≠ [] ∧ kv.2 ∉ evs then some (kv.1, enumMsg kv.2 evs)
              else Option.none) = some e := hf2
          by_cases hc : evs ≠ [] ∧ kv.2 ∉ evs
          · rw [if_pos hc] at hf3
            have hfe := Option.some.inj hf3
            refine ⟨q, hq, ?_⟩
            have h1 : q.name = kv.1 := (congrArg Prod.fst hqe).symm
            rw [← hfe, h1]
          · rw [if_neg hc] at hf3
            exact absurd hf3 (by simp)
  · intro hreq henum
    unfold Tool.validate_parameters
    apply List.append_eq_nil.mpr
    constructor
    · apply List.filterMap_eq_nil_iff.mpr
      intro np hnp
      rw [if_neg]
      simp only [not_and]
      intro hr habs
      have hsome := hreq np hnp hr
      rw [habs] at hsome
      exact absurd hsome (by simp)
    · apply List.filterMap_eq_nil_iff.mpr
      intro kv hkv
      show (match alookup (paramDict t.params) kv.1 with
        | some p =>
          match p.enum_values with
          | some evs =>
            if evs ≠ [] ∧ kv.2 ∉ evs then some (kv.1, enumMsg kv.2 evs) else Option.none
          | Option.none => Option.none
        | Option.none => Option.none) = Option.none
      cases hl : alookup (paramDict t.params) kv.1 with
      | none => rfl
      | some p =>
        show (match p.enum_values with
          | some evs =>
            if evs ≠ [] ∧ kv.2 ∉ evs then some (kv.1, enumMsg kv.2 evs) else Option.none
          | Option.none => Option.none) = Option.none
        cases he2 : p.enum_values with
        | none => rfl
        | some evs =>
          show (if evs ≠ [] ∧ kv.2 ∉ evs then some (kv.1, enumMsg kv.2 evs)
            else Option.none) = Option.none
          rw [if_neg]
          rcases henum kv hkv p hl evs he2 with h | h
          · simp [h]
          · simp only [not_and, not_not]
            intro _
            exact h

/-- Witness for C3 (amended): the kubectl-shaped tool with its required
parameter supplied validates cleanly. -/
theorem validate_parameters_spec_witness :
    cmdTool.validate_parameters [(chars "command", chars "get pods")] = [] := by
  apply (validate_parameters_spec cmdTool [(chars "command", chars "get pods")]).2.2.2
  · decide
  · intro kv hkv p hl evs henum
    have hkv2 : kv = (chars "command", chars "get pods") := List.mem_singleton.mp hkv
    subst hkv2
    have h2 : alookup (paramDict cmdTool.params) (chars "command") = some cmdParam := rfl
    have h3 : some cmdParam = some p := h2.symm.trans hl
    have hp : cmdParam = p := Option.some.inj h3
    rw [← hp] at henum
    exact absurd henum (by simp [cmdParam])

theorem alookup_dictSet {κ α : Type} [DecidableEq κ] (m : List (κ × α)) (k k2 : κ) (v : α) :
    alookup (dictSet m k v) k2 = if k = k2 then some v else alookup m k2 := by
  induction m with
  | nil => simp [dictSet, alookup]
  | cons kv rest ih =>
    by_cases h1 : kv.1 = k
    · simp only [dictSet, if_pos h1]
      by_cases h2 : k = k2
      · simp [alookup, h2]
      · simp [alookup, h2]
        rw [if_neg (by rw [h1]; exact h2)]
    · simp only [dictSet, if_neg h1]
      by_cases h2 : kv.1 = k2
      · have : ¬ k = k2 := by
          intro hc
          exact h1 (by rw [hc, h2])
        simp [alookup, h2, this]
      · simp only [alookup, if_neg h2]
        exact ih

theorem alookup_dictRemove {κ α : Type} [DecidableEq κ] (m : List (κ × α)) (k k2 : κ) :
    alookup (dictRemove m k) k2 = if k = k2 then Option.none else alookup m k2 := by
  induction m with
  | nil => simp [dictRemove, alookup]
  | cons kv rest ih =>
    by_cases h1 : kv.1 = k
    · have hd : dictRemove (kv :: rest) k = dictRemove rest k := by
        simp [dictRemove, h1]
      rw [hd, ih]
      by_cases h2 : k = k2
      · rw [if_pos h2, if_pos h2]
      · rw [if_neg h2, if_neg h2]
        have hne : ¬ kv.1 = k2 := by rw [h1]; exact h2
        show alookup rest k2 = if kv.1 = k2 then some kv.2 else alookup rest k2
        rw [if_neg hne]
    · have hd : dictRemove (kv :: rest) k = kv :: dictRemove rest k := by
        simp [dictRemove, h1]
      rw [hd]
      by_cases h2 : kv.1 = k2
      · have hne : ¬ k = k2 := by
          intro hc
          exact h1 (by rw [hc, h2])
        simp [alookup, h2, hne]
      · show (if kv.1 = k2 then some kv.2 else alookup (dictRemove rest k) k2) = _
        rw [if_neg h2, ih]
        by_cases h3 : k = k2
        · rw [if_pos h3, if_pos h3]
        · rw [if_neg h3, if_neg h3]
          show alookup rest k2 = if kv.1 = k2 then some kv.2 else alookup rest k2
          rw [if_neg h2]

theorem alookup_catUpdate (cats : List (ToolCategory × List Str)) (c : ToolCategory)
    (f : List Str → List Str) (c2 : ToolCategory) :
    alookup (catUpdate cats c f) c2 =
      if c = c2 then (alookup cats c2).map f else alookup cats c2 := by
  induction cats with
  | nil => simp [catUpdate, alookup]
  | cons p rest ih =>
    by_cases h1 : p.1 = c
    · simp only [catUpdate, List.map_cons, if_pos h1]
      by_cases h2 : p.1 = c2
      · have hc2 : c = c2 := by rw [← h1, h2]
        simp [alookup, h2, hc2]
      · have : ¬ c = c2 := by
          intro hc
          exact h2 (by rw [h1, hc])
        simp only [alookup, if_neg h2, this, if_neg this]
        simpa [catUpdate, this] using ih
    · simp only [catUpdate, List.map_cons, if_neg h1]
      by_cases h2 : p.1 = c2
      · have : ¬ c = c2 := by
          intro hc
          exact h1 (by rw [hc, h2])
        simp [alookup, h2, this]
      · simp only [alookup, if_neg h2]
        simpa [catUpdate] using ih

theorem mem_setAdd (s : List Str) (n x : Str) : x ∈ setAdd s n ↔ x ∈ s ∨ x = n := by
  unfold setAdd
  by_cases h : n ∈ s
  · simp only [if_pos h]
    constructor
    · exact fun hx => Or.inl hx
    · rintro (hx | hx)
      · exact hx
      · rw [hx]; exact h
  · simp [if_neg h]

theorem catNames_register (r : ToolRegistry) (t : Tool) (c : ToolCategory)
    (hc : CatsComplete r) :
    catNames (r.register t) c =
      if t.category = c then setAdd (catNames r c) t.name else catNames r c := by
  unfold catNames ToolRegistry.register
  rw [alookup_catUpdate]
  by_cases h : t.category = c
  · rw [if_pos h, if_pos h]
    cases hl : alookup r.categories c with
    | none =>
        have hx := hc c
        rw [hl] at hx
        simp at hx
    | some s => rfl
  · rw [if_neg h, if_neg h]

theorem catNames_unregister_found (r : ToolRegistry) (nm : Str) (t : Tool)
    (c : ToolCategory) (hc : CatsComplete r) (hl : alookup r.tools nm = some t) :
    catNames (r.unregister nm).1 c =
      if t.category = c then (catNames r c).filter (fun n => n ≠ nm) else catNames r c := by
  unfold catNames ToolRegistry.unregister
  rw [hl]
  show ((alookup (catUpdate r.categories t.category (fun s => s.filter (fun n => n ≠ nm))) c).getD []) = _
  rw [alookup_catUpdate]
  by_cases h : t.category = c
  · rw [if_pos h, if_pos h]
    cases hl2 : alookup r.categories c with
    | none =>
        have hx := hc c
        rw [hl2] at hx
        simp at hx
    | some s => rfl
  · rw [if_neg h, if_neg h]

theorem tools_unregister_found (r : ToolRegistry) (nm : Str) (t : Tool)
    (hl : alookup r.tools nm = some t) :
    (r.unregister nm).1.tools = dictRemove r.tools nm := by
  unfold ToolRegistry.unregister
  rw [hl]

theorem unregister_not_found (r : ToolRegistry) (nm : Str)
    (hl : alookup r.tools nm = Option.none) : (r.unregister nm).1 = r := by
  unfold ToolRegistry.unregister
  rw [hl]

theorem catsComplete_step (r : ToolRegistry) (op : RegOp) (hc : CatsComplete r) :
    CatsComplete (applyOp r op) := by
  cases op with
  | reg t =>
    intro c
    show (alookup (catUpdate r.categories t.category (fun s => setAdd s t.name)) c).isSome = true
    rw [alookup_catUpdate]
    by_cases h : t.category = c
    · rw [if_pos h]
      cases hl : alookup r.categories c with
      | none =>
        have hx := hc c
        rw [hl] at hx
        simp at hx
      | some s => rfl
    · rw [if_neg h]; exact hc c
  | unreg nm =>
    cases hl : alookup r.tools nm with
    | none => rw [show applyOp r (RegOp.unreg nm) = r from unregister_not_found r nm hl]; exact hc
    | some t =>
      intro c
      show (alookup (r.unregister nm).1.categories c).isSome = true
      unfold ToolRegistry.unregister
      rw [hl]
      show (alookup (catUpdate r.categories t.category
        (fun s => s.filter (fun n => n ≠ nm))) c).isSome = true
      rw [alookup_catUpdate]
      by_cases h : t.category = c
      · rw [if_pos h]
        cases hl2 : alookup r.categories c with
        | none =>
        have hx := hc c
        rw [hl2] at hx
        simp at hx
        | some s => rfl
      · rw [if_neg h]; exact hc c

theorem emptyRegistry_catsComplete : CatsComplete emptyRegistry := by
  intro c
  cases c <;> rfl

theorem emptyRegistry_consistent : Consistent emptyRegistry := by
  intro n c
  constructor
  · intro h
    have hempty : catNames emptyRegistry c = [] := by cases c <;> rfl
    rw [hempty] at h
    simp at h
  · rintro ⟨t, hl, _⟩
    exact absurd hl (by simp [emptyRegistry, alookup])

theorem forward_step (r : ToolRegistry) (op : RegOp) (hc : CatsComplete r)
    (hf : ForwardConsistent r) : ForwardConsistent (applyOp r op) := by
  cases op with
  | reg t =>
    intro n u hl
    have hl2 : alookup (dictSet r.tools t.name t) n = some u := hl
    rw [alookup_dictSet] at hl2
    rw [show applyOp r (RegOp.reg t) = r.register t from rfl, catNames_register r t u.category hc]
    by_cases hn : t.name = n
    · rw [if_pos hn] at hl2
      have hu : t = u := Option.some.inj hl2
      rw [if_pos (by rw [hu])]
      apply (mem_setAdd _ _ _).mpr
      exact Or.inr hn.symm
    · rw [if_neg hn] at hl2
      have hold := hf n u hl2
      by_cases hcat : t.category = u.category
      · rw [if_pos hcat]
        exact (mem_setAdd _ _ _).mpr (Or.inl hold)
      · rw [if_neg hcat]
        exact hold
  | unreg nm =>
    cases hl : alookup r.tools nm with
    | none =>
      rw [show applyOp r (RegOp.unreg nm) = r from unregister_not_found r nm hl]
      exact hf
    | some t =>
      intro n u hlu
      have hlu2 : alookup (dictRemove r.tools nm) n = some u := by
        rw [← tools_unregister_found r nm t hl]
        exact hlu
      rw [alookup_dictRemove] at hlu2
      by_cases hn : nm = n
      · rw [if_pos hn] at hlu2
        exact absurd hlu2 (by simp)
      · rw [if_neg hn] at hlu2
        have hold := hf n u hlu2
        rw [show applyOp r (RegOp.unreg nm) = (r.unregister nm).1 from rfl,
          catNames_unregister_found r nm t u.category hc hl]
        by_cases hcat : t.category = u.category
        · rw [if_pos hcat]
          apply List.mem_filter.mpr
          refine ⟨hold, ?_⟩
          simp only [ne_eq, decide_eq_true_eq]
          intro hcontra
          exact hn (hcontra ▸ rfl)
        · rw [if_neg hcat]
          exact hold

theorem consistent_step (r : ToolRegistry) (op : RegOp) (hc : CatsComplete r)
    (hcons : Consistent r)
    (hok : match op with
      | RegOp.reg t => ∀ t0, alookup r.tools t.name = some t0 → t0.category = t.category
      | RegOp.unreg _ => True) :
    Consistent (applyOp r op) := by
  cases op with
  | reg t =>
    intro n c
    have htools : (applyOp r (RegOp.reg t)).tools = dictSet r.tools t.name t := rfl
    rw [htools, alookup_dictSet,
      show applyOp r (RegOp.reg t) = r.register t from rfl, catNames_register r t c hc]
    by_cases hn : t.name = n
    · rw [if_pos hn]
      constructor
      · intro hmem
        refine ⟨t, rfl, ?_⟩
        by_cases hcat : t.category = c
        · exact hcat
        · rw [if_neg hcat] at hmem
          have := (hcons n c).mp hmem
          obtain ⟨u, hlu, huc⟩ := this
          rw [← hn] at hlu
          have := hok u hlu
          rw [← huc, this]
      · rintro ⟨u, hu, huc⟩
        have hut : t = u := Option.some.inj hu.symm ▸ rfl
        have hut2 : u = t := (Option.some.inj hu).symm
        rw [hut2] at huc
        rw [if_pos huc]
        exact (mem_setAdd _ _ _).mpr (Or.inr hn.symm)
    · rw [if_neg hn]
      by_cases hcat : t.category = c
      · rw [if_pos hcat]
        constructor
        · intro hmem
          rcases (mem_setAdd _ _ _).mp hmem with h | h
          · exact (hcons n c).mp h
          · exact absurd h.symm hn
        · intro hex
          exact (mem_setAdd _ _ _).mpr (Or.inl ((hcons n c).mpr hex))
      · rw [if_neg hcat]
        exact hcons n c
  | unreg nm =>
    cases hl : alookup r.tools nm with
    | none =>
      rw [show applyOp r (RegOp.unreg nm) = r from unregister_not_found r nm hl]
      exact hcons
    | some t =>
      intro n c
      have htools : (applyOp r (RegOp.unreg nm)).tools = dictRemove r.tools nm :=
        tools_unregister_found r nm t hl
      rw [show applyOp r (RegOp.unreg nm) = (r.unregister nm).1 from rfl] at htools ⊢
      rw [htools, alookup_dictRemove, catNames_unregister_found r nm t c hc hl]
      by_cases hn : nm = n
      · rw [if_pos hn]
        constructor
        · intro hmem
          by_cases hcat : t.category = c
          · rw [if_pos hcat] at hmem
            have := (List.mem_filter.mp hmem).2
            simp only [ne_eq, decide_eq_true_eq] at this
            exact absurd hn.symm this
          · rw [if_neg hcat] at hmem
            obtain ⟨u, hlu, huc⟩ := (hcons n c).mp hmem
            rw [← hn] at hlu
            rw [hl] at hlu
            have hut : t = u := Option.some.inj hlu
            rw [← hut] at huc
            exact absurd huc hcat
        · rintro ⟨u, hu, _⟩
          exact absurd hu (by simp)
      · rw [if_neg hn]
        by_cases hcat : t.category = c
        · rw [if_pos hcat]
          constructor
          · intro hmem
            exact (hcons n c).mp (List.mem_filter.mp hmem).1
          · intro hex
            apply List.mem_filter.mpr
            refine ⟨(hcons n c).mpr hex, ?_⟩
            simp only [ne_eq, decide_eq_true_eq]
            intro hcontra
            exact hn (hcontra ▸ rfl)
        · rw [if_neg hcat]
          exact hcons n c

theorem consistent_run (ops : List RegOp) :
    ∀ r : ToolRegistry, CatsComplete r → Consistent r → NoCrossOverwrite r ops →
    Consistent (applyOpsFrom r ops) := by
  induction ops with
  | nil => intro r _ hcons _; exact hcons
  | cons op rest ih =>
    intro r hc hcons hno
    have hstep : Consistent (applyOp r op) := consistent_step r op hc hcons hno.1
    exact ih (applyOp r op) (catsComplete_step r op hc) hstep hno.2

theorem forward_run (ops : List RegOp) :
    ∀ r : ToolRegistry, CatsComplete r → ForwardConsistent r →
    ForwardConsistent (applyOpsFrom r ops) := by
  induction ops with
  | nil => intro r _ hf; exact hf
  | cons op rest ih =>
    intro r hc hf
    exact ih (applyOp r op) (catsComplete_step r op hc) (forward_step r op hc hf)

theorem emptyRegistry_forward : ForwardConsistent emptyRegistry := by
  intro n t hl
  exact absurd hl (by simp [emptyRegistry, alookup])

/-- C5 counterexample: registering a second tool under an already-registered
name but a different category leaves the name in the old category index while
the name map now holds a tool of the new category, so the claimed
name-map/category-index equivalence fails after this operation sequence. -/
theorem register_cross_category_breaks_consistency :
    ¬ Consistent (applyOps [RegOp.reg tKub, RegOp.reg tIst]) := by
  intro h
  have h1 : chars "x" ∈ catNames (applyOps [RegOp.reg tKub, RegOp.reg tIst])
      ToolCategory.kubernetes := by
    have he : catNames (applyOps [RegOp.reg tKub, RegOp.reg tIst])
        ToolCategory.kubernetes = [chars "x"] := rfl
    rw [he]
    exact List.mem_singleton.mpr rfl
  obtain ⟨t, hl, hcat⟩ := (h (chars "x") ToolCategory.kubernetes).mp h1
  have hl2 : alookup (applyOps [RegOp.reg tKub, RegOp.reg tIst]).tools (chars "x") =
      some tIst := rfl
  rw [hl2] at hl
  have ht : tIst = t := Option.some.inj hl
  rw [← ht] at hcat
  have : ToolCategory.istio = ToolCategory.kubernetes := hcat
  exact ToolCategory.noConfusion this

/-- C5 (amended): for every operation sequence from the fresh registry, every
name in the name map is indexed under its tool category; and the full
equivalence (name indexed under c iff the map holds a tool of that name with
category c) holds whenever no register call overwrites an existing name with a
tool of a different category, which the counterexample shows is the one case
the code does not clean up. -/
theorem registry_consistency (ops : List RegOp) :
    ForwardConsistent (applyOps ops) ∧
    (NoCrossOverwrite emptyRegistry ops → Consistent (applyOps ops)) := by
  constructor
  · exact forward_run ops emptyRegistry emptyRegistry_catsComplete emptyRegistry_forward
  · intro hno
    exact consistent_run ops emptyRegistry emptyRegistry_catsComplete
      emptyRegistry_consistent hno

/-- Witness for C5 (amended): a register followed by an unregister of the same
name keeps the two structures consistent. -/
theorem registry_consistency_witness :
    Consistent (applyOps [RegOp.reg tKub, RegOp.unreg (chars "x")]) := by
  apply (registry_consistency [RegOp.reg tKub, RegOp.unreg (chars "x")]).2
  refine ⟨?_, trivial, trivial⟩
  intro t0 h
  exact Option.noConfusion h

/-- C6 counterexample: the narrative heuristic also emits a kubectl ToolCall
from a line that does not start with the literal prefix, so producing a
kubectl ToolCall is not equivalent to the trimmed line starting with the
case-sensitive prefix followed by a space. -/
theorem heuristic_line_yields_kubectl_call :
    extract_tool_calls (chars "let me check pods using kubectl") (chars "prod") =
      [getPodsCall (chars "prod")] ∧
    (getPodsCall (chars "prod")).tool = chars "kubectl" ∧
    strStartsWith (strTrim (chars "let me check pods using kubectl"))
      (chars "kubectl ") = false := by
  refine ⟨by decide, by decide, by decide⟩

/-- C6 (amended): a line whose trimmed text starts with the case-sensitive
prefix "kubectl " (and only such a line) yields exactly one kubectl ToolCall
carrying the stripped remainder of the line as the command plus the current
namespace; a non-matching line can yield a kubectl ToolCall only through the
narrative let-me-check/using heuristic, and then only the fixed get pods or
get services call. A line beginning kubectl without a following space does
not match the prefix rule. -/
theorem kubectl_prefix_line_rule (rawLine ns : Str) :
    (strStartsWith (strTrim rawLine) (chars "kubectl ") = true →
      extractLineCalls rawLine ns =
        [kubectlCall (strTrim ((strTrim rawLine).drop 8)) ns]) ∧
    (strStartsWith (strTrim rawLine) (chars "kubectl ") = false →
      ∀ tc ∈ extractLineCalls rawLine ns, tc.tool = chars "kubectl" →
        tc = getPodsCall ns ∨ tc = getServicesCall ns) := by
  constructor
  · intro h
    unfold extractLineCalls
    rw [if_pos h]
  · intro h tc htc htool
    unfold extractLineCalls at htc
    rw [if_neg (by rw [h]; exact Bool.false_ne_true)] at htc
    by_cases h2 : strStartsWith (strTrim rawLine) (chars "istio ") = true
    · rw [if_pos h2] at htc
      rcases hsp : splitOnceAtSpace (strTrim ((strTrim rawLine).drop 6)) with ⟨action, osvc⟩
      rw [hsp] at htc
      cases osvc with
      | none =>
        rw [List.mem_singleton.mp htc] at htool
        exact absurd (show chars "istio" = chars "kubectl" from htool) (by decide)
      | some service =>
        rw [List.mem_singleton.mp htc] at htool
        exact absurd (show chars "istio" = chars "kubectl" from htool) (by decide)
    · rw [if_neg h2] at htc
      by_cases h3 : (strContains (chars "let me check") (strLower (strTrim rawLine)) &&
          strContains (chars "using") (strLower (strTrim rawLine))) = true
      · rw [if_pos h3] at htc
        by_cases h4 : strContains (chars "kubectl") (strLower (strTrim rawLine)) = true
        · rw [if_pos h4] at htc
          by_cases h5 : strContains (chars "pods") (strLower (strTrim rawLine)) = true
          · rw [if_pos h5] at htc
            exact Or.inl (List.mem_singleton.mp htc)
          · rw [if_neg h5] at htc
            by_cases h6 : strContains (chars "services") (strLower (strTrim rawLine)) = true
            · rw [if_pos h6] at htc
              exact Or.inr (List.mem_singleton.mp htc)
            · rw [if_neg h6] at htc
              simp at htc
        · rw [if_neg h4] at htc
          simp at htc
      · rw [if_neg h3] at htc
        simp at htc

/-- Witness for C6 (amended): the spec example line. -/
theorem kubectl_prefix_line_rule_witness :
    extractLineCalls (chars "kubectl get pods") (chars "prod") =
      [kubectlCall (strTrim ((strTrim (chars "kubectl get pods")).drop 8)) (chars "prod")] ∧
    kubectlCall (strTrim ((strTrim (chars "kubectl get pods")).drop 8)) (chars "prod") =
      kubectlCall (chars "get pods") (chars "prod") := by
  refine ⟨(kubectl_prefix_line_rule (chars "kubectl get pods") (chars "prod")).1 (by decide),
    by decide⟩

/-- C7: the fallback fires exactly when the per-line rules produced nothing
and the response contains an investigation trigger (case-insensitive), and
then emits exactly the single default get pods call against the current
namespace; it never fires when a per-line rule produced a call. -/
theorem fallback_investigation_rule (resp ns : Str) :
    (lineCallsOf resp ns = [] → should_start_investigation resp = true →
      extract_tool_calls resp ns = [getPodsCall ns]) ∧
    (lineCallsOf resp ns = [] → should_start_investigation resp = false →
      extract_tool_calls resp ns = []) ∧
    (lineCallsOf resp ns ≠ [] → extract_tool_calls resp ns = lineCallsOf resp ns) := by
  refine ⟨?_, ?_, ?_⟩
  · intro h1 h2
    unfold extract_tool_calls
    rw [if_pos ⟨h1, h2⟩, h1]
    rfl
  · intro h1 h2
    unfold extract_tool_calls
    rw [if_neg (by rw [h2]; rintro ⟨_, hc⟩; exact Bool.false_ne_true hc), h1]
  · intro h1
    unfold extract_tool_calls
    rw [if_neg (by rintro ⟨hc, _⟩; exact h1 hc)]

/-- Witness for C7: the spec example response with no tool-prefixed lines. -/
theorem fallback_investigation_rule_witness :
    extract_tool_calls (chars "Let me investigate this issue") (chars "default") =
      [getPodsCall (chars "default")] :=
  (fallback_investigation_rule (chars "Let me investigate this issue")
    (chars "default")).1 (by decide) (by decide)

theorem runLoop_all_tool_rounds (llm : List Message → Str) (texec : ToolCall → ToolResult)
    (sysPrompt : Str) (h : ∀ msgs ns, extract_tool_calls (llm msgs) ns ≠ []) :
    ∀ fuel hist ctx calls, ∃ ctx2 tail,
      runLoop llm texec sysPrompt fuel hist ctx calls =
        (hist ++ tail, ctx2, limitMessage, calls + fuel) := by
  intro fuel
  induction fuel with
  | zero =>
    intro hist ctx calls
    exact ⟨ctx, [], by simp [runLoop]⟩
  | succ fuel ih =>
    intro hist ctx calls
    have hne := h (sysMsg sysPrompt :: hist) ctx.nspace
    obtain ⟨ctx2, tail, htail⟩ := ih
      (hist ++ [assistantMsg (llm (sysMsg sysPrompt :: hist))] ++
        [userMsg (chars "Tool Results:\n" ++ format_tool_results (execute_tools texec
          (extract_tool_calls (llm (sysMsg sysPrompt :: hist)) ctx.nspace) ctx).1)])
      (execute_tools texec
        (extract_tool_calls (llm (sysMsg sysPrompt :: hist)) ctx.nspace) ctx).2
      (calls + 1)
    refine ⟨ctx2, [assistantMsg (llm (sysMsg sysPrompt :: hist))] ++
      [userMsg (chars "Tool Results:\n" ++ format_tool_results (execute_tools texec
        (extract_tool_calls (llm (sysMsg sysPrompt :: hist)) ctx.nspace) ctx).1)] ++ tail, ?_⟩
    have hstep : runLoop llm texec sysPrompt (fuel + 1) hist ctx calls =
        runLoop llm texec sysPrompt fuel
          (hist ++ [assistantMsg (llm (sysMsg sysPrompt :: hist))] ++
            [userMsg (chars "Tool Results:\n" ++ format_tool_results (execute_tools texec
              (extract_tool_calls (llm (sysMsg sysPrompt :: hist)) ctx.nspace) ctx).1)])
          (execute_tools texec
            (extract_tool_calls (llm (sysMsg sysPrompt :: hist)) ctx.nspace) ctx).2
          (calls + 1) := by
      simp only [runLoop]
      rw [if_neg hne]
    rw [hstep, htail]
    have harith : calls + 1 + fuel = calls + (fuel + 1) := by omega
    rw [harith]
    simp [List.append_assoc]

theorem historyAfterAppend_ne_nil (a : Agent) (input : Str) :
    historyAfterAppend a input ≠ [] := by
  unfold historyAfterAppend pySliceLast
  intro hcontra
  by_cases h1 : (a.conversation_history ++ [userMsg input]).length > a.conversation_memory * 2
  · rw [if_pos h1] at hcontra
    by_cases h2 : a.conversation_memory = 0
    · rw [if_pos h2] at hcontra
      exact absurd hcontra (by simp)
    · rw [if_neg h2] at hcontra
      have := List.drop_eq_nil_iff.mp hcontra
      simp at this
      omega
  · rw [if_neg h1] at hcontra
    exact absurd hcontra (by simp)

/-- C8: with collaborators stubbed so that every LLM response extracts to a
non-empty ToolCall list, process_query makes exactly max_iterations LLM calls
and then returns the fixed analysis-limit message; the model is a total
function so no error is raised, the conversation history keeps the appended
turn messages (it is extended, never cleared), and the session context is
still present. -/
theorem process_query_budget (llm : List Message → Str) (texec : ToolCall → ToolResult)
    (a : Agent) (user_input ns : Str)
    (h : ∀ msgs ns2, extract_tool_calls (llm msgs) ns2 ≠ []) :
    (process_query llm texec a user_input ns).2.1 = limitMessage ∧
    (process_query llm texec a user_input ns).2.2 = a.max_iterations ∧
    (process_query llm texec a user_input ns).1.context.isSome = true ∧
    (∃ tail, (process_query llm texec a user_input ns).1.conversation_history =
      historyAfterAppend a user_input ++ tail) ∧
    (process_query llm texec a user_input ns).1.conversation_history ≠ [] := by
  obtain ⟨ctx2, tail, hrun⟩ := runLoop_all_tool_rounds llm texec a.system_prompt h
    a.max_iterations (historyAfterAppend a user_input)
    (match a.context with
      | Option.none => newContext user_input ns
      | some c => if is_new_issue user_input then newContext user_input ns else c) 0
  have hpq : process_query llm texec a user_input ns =
      (Agent.mk a.max_iterations a.conversation_memory
        (historyAfterAppend a user_input ++ tail) (some ctx2) a.system_prompt,
       limitMessage, 0 + a.max_iterations) := by
    simp only [process_query]
    rw [hrun]
  rw [hpq]
  refine ⟨rfl, by simp, rfl, ⟨tail, rfl⟩, ?_⟩
  intro hcontra
  exact historyAfterAppend_ne_nil a user_input (List.append_eq_nil.mp hcontra).1

/-- Witness for C8: a stub LLM that always answers with a kubectl line, an
iteration budget of 2. -/
theorem process_query_budget_witness :
    (process_query (fun _ => chars "kubectl get pods") (fun _ => okResult)
      agentW (chars "my pods keep restarting") (chars "default")).2.2 = 2 ∧
    (process_query (fun _ => chars "kubectl get pods") (fun _ => okResult)
      agentW (chars "my pods keep restarting") (chars "default")).2.1 = limitMessage := by
  have h : ∀ (msgs : List Message) (ns2 : Str),
      extract_tool_calls ((fun _ : List Message => chars "kubectl get pods") msgs) ns2 ≠ [] := by
    intro msgs ns2
    have he : extract_tool_calls (chars "kubectl get pods") ns2 =
        [kubectlCall (chars "get pods") ns2] := rfl
    rw [he]
    simp
  have H := process_query_budget (fun _ => chars "kubectl get pods") (fun _ => okResult)
    agentW (chars "my pods keep restarting") (chars "default") h
  exact ⟨H.2.1, H.1⟩

/-- C9 counterexample: with conversation_memory = 0 the history length after
the append exceeds 2 x conversation_memory, yet the truncation keeps the
whole history rather than exactly the most recent 0 messages, because the
Python slice history[-0:] is the entire list. -/
theorem history_truncation_zero_memory :
    agent0.conversation_memory = 0 ∧
    (agent0.conversation_history ++ [userMsg (chars "hi")]).length >
      agent0.conversation_memory * 2 ∧
    historyAfterAppend agent0 (chars "hi") =
      agent0.conversation_history ++ [userMsg (chars "hi")] ∧
    (historyAfterAppend agent0 (chars "hi")).length ≠ agent0.conversation_memory := by
  refine ⟨rfl, by decide, by decide, by decide⟩

/-- C9 (amended): process_query first appends the query as a user message;
when conversation_memory is at least 1 and the appended history length
exceeds conversation_memory * 2, exactly the most recent conversation_memory
messages remain in their original order (the list suffix of that length), and
otherwise the history is left untruncated. With conversation_memory = 0 the
truncation branch keeps the entire history. -/
theorem history_truncation_bound (a : Agent) (input : Str)
    (hm : 1 ≤ a.conversation_memory) :
    ((a.conversation_history ++ [userMsg input]).length > a.conversation_memory * 2 →
      historyAfterAppend a input =
        (a.conversation_history ++ [userMsg input]).drop
          ((a.conversation_history ++ [userMsg input]).length - a.conversation_memory) ∧
      (historyAfterAppend a input).length = a.conversation_memory) ∧
    (¬ (a.conversation_history ++ [userMsg input]).length > a.conversation_memory * 2 →
      historyAfterAppend a input = a.conversation_history ++ [userMsg input]) := by
  constructor
  · intro hgt
    have hm0 : a.conversation_memory ≠ 0 := by omega
    have heq : historyAfterAppend a input =
        (a.conversation_history ++ [userMsg input]).drop
          ((a.conversation_history ++ [userMsg input]).length - a.conversation_memory) := by
      unfold historyAfterAppend pySliceLast
      rw [if_pos hgt, if_neg hm0]
    refine ⟨heq, ?_⟩
    rw [heq, List.length_drop]
    omega
  · intro hle
    unfold historyAfterAppend
    rw [if_neg hle]

/-- Witness for C9 (amended) at a two-message history with memory 1. -/
theorem history_truncation_bound_witness :
    historyAfterAppend agentH (chars "q") =
      (agentH.conversation_history ++ [userMsg (chars "q")]).drop
        ((agentH.conversation_history ++ [userMsg (chars "q")]).length -
          agentH.conversation_memory) ∧
    (historyAfterAppend agentH (chars "q")).length = agentH.conversation_memory ∧
    historyAfterAppend agentH (chars "q") = [userMsg (chars "q")] := by
  have H := (history_truncation_bound agentH (chars "q") (by decide)).1 (by decide)
  exact ⟨H.1, H.2, by decide⟩

theorem applyCrashLoop_shape (d : Str) (c : ConversationContext) :
    ∃ s1 s2, applyCrashLoop d c =
      { c with symptoms := c.symptoms ++ s1,
               suspected_components := c.suspected_components ++ s2 } := by
  unfold applyCrashLoop
  by_cases h : strContains (chars "crashloopbackoff") d = true
  · rw [if_pos h]
    exact ⟨[chars "Pod in CrashLoopBackOff"], [chars "application startup"], rfl⟩
  · rw [if_neg h]
    exact ⟨[], [], by simp⟩

theorem applyImagePull_shape (d : Str) (c : ConversationContext) :
    ∃ s1 s2, applyImagePull d c =
      { c with symptoms := c.symptoms ++ s1,
               suspected_components := c.suspected_components ++ s2 } := by
  unfold applyImagePull
  by_cases h : (strContains (chars "imagepullbackoff") d ||
      strContains (chars "errimagepull") d) = true
  · rw [if_pos h]
    exact ⟨[chars "Image pull failure"], [chars "container registry"], rfl⟩
  · rw [if_neg h]
    exact ⟨[], [], by simp⟩

theorem applyPending_shape (d : Str) (c : ConversationContext) :
    ∃ s1 s2, applyPending d c =
      { c with symptoms := c.symptoms ++ s1,
               suspected_components := c.suspected_components ++ s2 } := by
  unfold applyPending
  by_cases h : strContains (chars "pending") d = true
  · rw [if_pos h]
    exact ⟨[chars "Pod stuck in Pending"], [chars "scheduling/resources"], rfl⟩
  · rw [if_neg h]
    exact ⟨[], [], by simp⟩

theorem applyPodHealth_fields (d : Str) (c : ConversationContext) :
    (applyPodHealth d c).symptoms = c.symptoms ∧
    (applyPodHealth d c).suspected_components = c.suspected_components ∧
    (applyPodHealth d c).nspace = c.nspace ∧
    (applyPodHealth d c).user_query = c.user_query ∧
    (applyPodHealth d c).investigation_steps = c.investigation_steps := by
  unfold applyPodHealth
  by_cases h : (splitOnChar (Char.ofNat 10) d).length > 1
  · rw [if_pos h]
    exact ⟨rfl, rfl, rfl, rfl, rfl⟩
  · rw [if_neg h]
    exact ⟨rfl, rfl, rfl, rfl, rfl⟩

/-- C10: folding a ToolResult into the session context leaves the context
completely unchanged unless the result succeeded, came from the kubectl tool,
and carries string data; and in every case the symptoms and
suspected_components lists only ever grow by appending at the end, while
namespace, user_query and investigation_steps are never modified. -/
theorem update_context_frame (tool_name : Str) (result : ToolResult)
    (ctx : ConversationContext) :
    ((result.success = false ∨ tool_name ≠ chars "kubectl" ∨
        (∀ s, result.data ≠ PyData.str s)) →
      update_context_from_result tool_name result ctx = ctx) ∧
    (∃ s1 s2, (update_context_from_result tool_name result ctx).symptoms =
        ctx.symptoms ++ s1 ∧
      (update_context_from_result tool_name result ctx).suspected_components =
        ctx.suspected_components ++ s2) ∧
    (update_context_from_result tool_name result ctx).nspace = ctx.nspace ∧
    (update_context_from_result tool_name result ctx).user_query = ctx.user_query ∧
    (update_context_from_result tool_name result ctx).investigation_steps =
      ctx.investigation_steps := by
  constructor
  · intro hguard
    unfold update_context_from_result
    rcases hguard with h | h | h
    · rw [h]
      rfl
    · cases hd : result.data with
      | str s =>
        cases hs : result.success with
        | false => rfl
        | true =>
          have hnk : ¬ tool_name = chars "kubectl" := h
          simp [hnk]
      | pnone => cases result.success <;> rfl
      | pother => cases result.success <;> rfl
    · cases hd : result.data with
      | str s => exact absurd hd (h s)
      | pnone => cases result.success <;> rfl
      | pother => cases result.success <;> rfl
  · cases hs : result.success with
    | false =>
      have hid : update_context_from_result tool_name result ctx = ctx := by
        unfold update_context_from_result
        rw [hs]
        rfl
      rw [hid]
      exact ⟨⟨[], [], by simp, by simp⟩, rfl, rfl, rfl⟩
    | true =>
      cases hd : result.data with
      | str s =>
        by_cases hk : tool_name = chars "kubectl"
        · have hid : update_context_from_result tool_name result ctx =
              applyPodHealth s (applyPending (strLower s)
                (applyImagePull (strLower s) (applyCrashLoop (strLower s) ctx))) := by
            unfold update_context_from_result
            rw [hs, hd]
            simp [hk]
          obtain ⟨a1, a2, ha⟩ := applyCrashLoop_shape (strLower s) ctx
          obtain ⟨b1, b2, hb⟩ := applyImagePull_shape (strLower s)
            (applyCrashLoop (strLower s) ctx)
          obtain ⟨c1, c2, hc⟩ := applyPending_shape (strLower s)
            (applyImagePull (strLower s) (applyCrashLoop (strLower s) ctx))
          have hph := applyPodHealth_fields s (applyPending (strLower s)
            (applyImagePull (strLower s) (applyCrashLoop (strLower s) ctx)))
          rw [hid]
          refine ⟨⟨a1 ++ b1 ++ c1, a2 ++ b2 ++ c2, ?_, ?_⟩, ?_, ?_, ?_⟩
          · rw [hph.1, hc, hb, ha]
            simp [List.append_assoc]
          · rw [hph.2.1, hc, hb, ha]
            simp [List.append_assoc]
          · rw [hph.2.2.1, hc, hb, ha]
          · rw [hph.2.2.2.1, hc, hb, ha]
          · rw [hph.2.2.2.2, hc, hb, ha]
        · have hid : update_context_from_result tool_name result ctx = ctx := by
            unfold update_context_from_result
            rw [hs, hd]
            simp [hk]
          rw [hid]
          exact ⟨⟨[], [], by simp, by simp⟩, rfl, rfl, rfl⟩
      | pnone =>
        have hid : update_context_from_result tool_name result ctx = ctx := by
          unfold update_context_from_result
          rw [hs, hd]
          rfl
        rw [hid]
        exact ⟨⟨[], [], by simp, by simp⟩, rfl, rfl, rfl⟩
      | pother =>
        have hid : update_context_from_result tool_name result ctx = ctx := by
          unfold update_context_from_result
          rw [hs, hd]
          rfl
        rw [hid]
        exact ⟨⟨[], [], by simp, by simp⟩, rfl, rfl, rfl⟩

/-- Witness for C10: a failed result leaves the concrete context unchanged. -/
theorem update_context_frame_witness :
    update_context_from_result (chars "logs") failResult ctx0 = ctx0 :=
  (update_context_frame (chars "logs") failResult ctx0).1 (Or.inl rfl)
